import Mathlib

/-!
Shallow embedding of `datatableview/datatables.py` (django-datatable-view).

Python semantics are made explicit: machine behaviour that raises an
exception is modelled with `Except PyError`, Python dictionaries are
insertion-ordered association lists, Python slices follow the
negative-index clamping rules of CPython, and Python truthiness of the
relevant values (`None`, empty strings, empty lists) is modelled where
the source tests it.
-/

set_option autoImplicit false

deriving instance DecidableEq for Except

namespace Datatables

/-- Exceptions that the embedded code can raise. -/
inductive PyError where
  | columnError (missing : List String)
  | attributeError (attr : String)
  | valueError (msg : String)
  | indexError (msg : String)
  | unboundLocalError (var : String)
  | nameError (var : String)
  | typeError (msg : String)
  | fieldDoesNotExist (field : String)
  deriving DecidableEq, Repr

/-- Python dictionary assignment `d[k] = v`: an existing key keeps its
insertion position and gets the new value; a new key is appended. -/
def dictSet {α : Type} : List (String × α) → String → α → List (String × α)
  | [], k, v => [(k, v)]
  | p :: d, k, v => if p.1 = k then (k, v) :: d else p :: dictSet d k v

/-- Python dictionary lookup `d.get(k)`. -/
def dictGet {α : Type} (d : List (String × α)) (k : String) : Option α :=
  (d.find? (fun p => p.1 = k)).map (fun p => p.2)

/-- Python `name.lstrip('-+')`: drop every leading `-` or `+`. -/
def pyLstripPM (s : String) : String :=
  ⟨s.data.dropWhile (fun c => c = '-' || c = '+')⟩

/-- Python `s.strip()` whitespace stripping, over the character list. -/
def pyStripWS (s : String) : List Char :=
  ((s.data.dropWhile Char.isWhitespace).reverse.dropWhile Char.isWhitespace).reverse

/-- Python `int(s)`: strip whitespace, allow one optional sign, then require a
nonempty digit string; anything else raises `ValueError`. -/
def pyIntParse (s : String) : Except PyError Int :=
  match pyStripWS s with
  | [] => .error (.valueError s)
  | c :: rest =>
      let digits : List Char :=
        if c = '-' || c = '+' then rest else c :: rest
      if digits.isEmpty || !(digits.all Char.isDigit) then .error (.valueError s)
      else
        let n : Nat := digits.foldl (fun acc d => acc * 10 + (d.toNat - 48)) 0
        pure (if c = '-' then -(n : Int) else (n : Int))

/-- Python `name.startswith('!')`, as a first-character test. -/
def pyStartsWithBang (s : String) : Bool :=
  match s.data with
  | c :: _ => c = '!'
  | [] => false

/-- Python `name[1:]`. -/
def pyTail (s : String) : String :=
  ⟨s.data.drop 1⟩

/-- One bound of a CPython slice `l[i:j]` (step 1): a negative bound counts
from the end, and both bounds are clamped into `[0, len]`. -/
def pyBound (len : Nat) (k : Int) : Nat :=
  if k < 0 then (k + len).toNat else min k.toNat len

/-- CPython list slice `l[i:j]` with step 1. -/
def pySlice {α : Type} (l : List α) (i j : Int) : List α :=
  (l.drop (pyBound l.length i)).take (pyBound l.length j - pyBound l.length i)

/-- `Datatable._get_current_page`: when `page_length != -1` the record list is
sliced to `[start_offset : start_offset + page_length]`; otherwise the local
variable `object_list` was never assigned and the `return object_list` line
raises `UnboundLocalError`. -/
def get_current_page {α : Type} (records : List α) (page_length : Int)
    (start_offset : Int) : Except PyError (List α) :=
  if page_length ≠ -1 then
    pure (pySlice records start_offset (start_offset + page_length))
  else
    .error (.unboundLocalError "object_list")

/-- `Datatable.get_records`: serialize every object of the current page;
an exception from the paging step propagates. -/
def get_records {α β : Type} (records : List α) (page_length : Int)
    (start_offset : Int) (serialize : α → β) : Except PyError (List β) :=
  (get_current_page records page_length start_offset).map (fun l => l.map serialize)

/-- The per-column ordering state `ColumnOrderingTuple(i, index, sort_direction)`:
request order-index, column position, and direction string. -/
structure ColumnOrderingTuple where
  order : Nat
  column_index : Int
  direction : String
  deriving DecidableEq, Repr

/-- `Datatable.get_column_index`: a name starting with `!` is converted with
`int()` (which can raise `ValueError`); otherwise `list.index` is attempted and
a missing name yields `-1`. -/
def get_column_index (flat_column_names : List String) (name : String) :
    Except PyError Int :=
  if pyStartsWithBang name then pyIntParse (pyTail name)
  else
    match flat_column_names.findIdx? (fun n => n = name) with
    | some i => pure (i : Int)
    | none => pure (-1)

/-- The loop body of `Datatable.configure` that builds `self.ordering` from
`config['ordering']`: strip the direction prefix, skip names whose column
index is `-1`, and record `(i, index, direction)` for the rest, keyed by the
stripped name. -/
def buildOrdering (flat_column_names : List String) :
    List String → Nat → List (String × ColumnOrderingTuple) →
    Except PyError (List (String × ColumnOrderingTuple))
  | [], _, m => pure m
  | nm :: rest, i, m =>
    match get_column_index flat_column_names (pyLstripPM nm) with
    | .error e => .error e
    | .ok idx =>
      if idx = -1 then buildOrdering flat_column_names rest (i + 1) m
      else
        match nm.data with
        | [] => .error (.indexError "string index out of range")
        | c :: _ =>
          let dir := if c = '-' then "desc" else "asc"
          buildOrdering flat_column_names rest (i + 1)
            (dictSet m (pyLstripPM nm) ⟨i, idx, dir⟩)

/-- The ordering part of `Datatable.configure`: `self.ordering = {}` and, when
`config['ordering']` is truthy, the `enumerate` loop over its entries. -/
def configure_ordering (flat_column_names : List String)
    (ordering : Option (List String)) :
    Except PyError (List (String × ColumnOrderingTuple)) :=
  match ordering with
  | none => pure []
  | some l => if l.isEmpty then pure [] else buildOrdering flat_column_names l 0 []

/-! ## Column assembly (`columns_for_model`, `DatatableMetaclass.__new__`) -/

/-- The Django model-field classes that appear in `COLUMN_TYPES`. -/
inductive FieldType where
  | charField | textField | fileField
  | dateField
  | booleanField | nullBooleanField
  | integerField | autoField
  | floatField | decimalField
  | foreignKey
  | otherField
  deriving DecidableEq, Repr

/-- The column classes of the `COLUMN_TYPES` mapping. -/
inductive ColumnType where
  | textColumn | dateColumn | booleanColumn | integerColumn | floatColumn
  | foreignKeyColumn
  deriving DecidableEq, Repr

/-- `get_column_for_modelfield`: scan `COLUMN_TYPES` for a column class whose
field-class list admits the field; an unmapped field yields `None`. -/
def get_column_for_modelfield (t : FieldType) : Option ColumnType :=
  match t with
  | .charField | .textField | .fileField => some .textColumn
  | .dateField => some .dateColumn
  | .booleanField | .nullBooleanField => some .booleanColumn
  | .integerField | .autoField => some .integerColumn
  | .floatField | .decimalField => some .floatColumn
  | .foreignKey => some .foreignKeyColumn
  | .otherField => none

/-- A Django model field as the assembly code reads it: its name, its
`verbose_name`, its `creation_counter` (the key of `Field.__lt__`, hence of
`sorted`), and its class. -/
structure ModelField where
  name : String
  verbose_name : String
  creation_counter : Nat
  ftype : FieldType
  deriving DecidableEq, Repr

/-- A Django model, reduced to its `_meta.fields` list. -/
structure ModelM where
  fields : List ModelField
  deriving DecidableEq, Repr

/-- A column object as the assembly code builds or patches it: `name`,
`label` (empty string models a falsy label), `sources` (empty list models
falsy sources), and the column class it was built from. -/
structure ColumnSpec where
  name : String
  label : String
  sources : List String
  ctype : ColumnType
  deriving DecidableEq, Repr

/-- `pretty_name`: empty input stays empty, otherwise the first character is
capitalized and the rest kept. -/
def pretty_name (s : String) : String :=
  match s.data with
  | [] => ""
  | c :: rest => ⟨c.toUpper :: rest⟩

/-- Python truthiness of an optional list (`None` and `[]` are falsy). -/
def pyTruthyList (o : Option (List String)) : Bool :=
  match o with
  | none => false
  | some l => !l.isEmpty

/-- Stable insertion used to model Python `sorted` over fields: an element
goes before the first strictly greater one, so equal keys keep their
original relative order. -/
def insertField (x : ModelField) : List ModelField → List ModelField
  | [] => [x]
  | y :: ys =>
      if y.creation_counter < x.creation_counter then y :: insertField x ys
      else x :: y :: ys

/-- Python `sorted(opts.fields)`, which Django's `Field.__lt__` makes a stable
sort by `creation_counter`. -/
def sortFields (l : List ModelField) : List ModelField :=
  l.foldr insertField []

/-- The test `fields is not None and f.name not in fields` of the first loop
of `columns_for_model`. -/
def cfmSkipsByFields (fields : Option (List String)) (nm : String) : Bool :=
  match fields with
  | some fl0 => !(fl0.contains nm)
  | none => false

/-- The first loop of `columns_for_model`: honour `fields`/`exclude`, map each
remaining field to its column class (calling `None` for an unmapped field
raises `TypeError`), and build the column with `sources=[f.name]`,
`label=pretty_name(f.verbose_name)` and `column.name = f.name`. -/
def cfmFieldList (fields exclude : Option (List String)) :
    List ModelField → Except PyError (List (String × ColumnSpec))
  | [] => pure []
  | f :: rest =>
      if cfmSkipsByFields fields f.name then
        cfmFieldList fields exclude rest
      else if pyTruthyList exclude && (exclude.getD []).contains f.name then
        cfmFieldList fields exclude rest
      else
        match get_column_for_modelfield f.ftype with
        | none => .error (.typeError "NoneType object is not callable")
        | some ct => do
            let tail ← cfmFieldList fields exclude rest
            pure ((f.name, ⟨f.name, pretty_name f.verbose_name, [f.name], ct⟩) :: tail)

/-- `OrderedDict(pairs)`: insert the pairs left to right, a repeated key
keeping its first position with its last value. -/
def odFromList {α : Type} (l : List (String × α)) : List (String × α) :=
  l.foldl (fun d p => dictSet d p.1 p.2) []

/-- `columns_for_model(model, fields, exclude)`: the sorted field loop, then,
when `fields` is truthy, the reordering `OrderedDict` whose values come from
`field_dict.get(f)` (hence `None` for an unknown name) filtered by
`(not exclude) or (exclude and f not in exclude)`. -/
def columns_for_model (model : ModelM) (fields exclude : Option (List String)) :
    Except PyError (List (String × Option ColumnSpec)) := do
  let field_list ← cfmFieldList fields exclude (sortFields model.fields)
  let field_dict := odFromList field_list
  if pyTruthyList fields then
    pure (odFromList ((fields.getD []).filterMap (fun f =>
      if !(pyTruthyList exclude) || !((exclude.getD []).contains f) then
        some (f, dictGet field_dict f)
      else none)))
  else
    pure (field_dict.map (fun p => (p.1, some p.2)))

/-- The patch-up loop of `DatatableMetaclass.__new__` over a declared column:
set `column.name`, default falsy `sources` to `[name]`, and default a falsy
`label` from the model field's `verbose_name` (raising `FieldDoesNotExist`
through `get_field_by_name` when the name is not a model field). -/
def fixup_declared (model : ModelM) (nm : String) (col : ColumnSpec) :
    Except PyError ColumnSpec :=
  let col1 := { col with name := nm }
  let col2 := if col1.sources.isEmpty then { col1 with sources := [nm] } else col1
  if col2.label = "" then
    match model.fields.find? (fun f => f.name = nm) with
    | some fld => pure { col2 with label := pretty_name fld.verbose_name }
    | none => .error (.fieldDoesNotExist nm)
  else pure col2

/-- The loop `for name, column in declared_columns.items()` of
`DatatableMetaclass.__new__`, applying `fixup_declared` to every declared
column in order and propagating the first exception. -/
def fixupAll (model : ModelM) :
    List (String × ColumnSpec) → Except PyError (List (String × ColumnSpec))
  | [] => pure []
  | p :: rest => do
      let c ← fixup_declared model p.1 p.2
      let tail ← fixupAll model rest
      pure ((p.1, c) :: tail)

/-- `missing_columns = set(none_model_columns) - set(declared_columns)`:
the names whose `columns_for_model` dict value is falsy (`None`), minus the
declared names (Python's set subtraction is modelled as an order-preserving
deduplicated filter). -/
def metaclass_missing (declared_columns : List (String × ColumnSpec))
    (cols : List (String × Option ColumnSpec)) : List String :=
  (((cols.filter (fun p => p.2.isNone)).map (fun p => p.1)).filter
    (fun k => !(declared_columns.any (fun d => d.1 = k)))).dedup

/-- `DatatableMetaclass.__new__` after `get_declared_columns`: with a truthy
model, run `columns_for_model`, raise `ColumnError` naming the missing
columns when any remain, otherwise patch the declared columns and
`columns.update(declared_columns)`; with no model the declared columns are
used as they are. The result models `base_columns`. -/
def datatable_metaclass_new (declared_columns : List (String × ColumnSpec))
    (opts_model : Option ModelM) (opts_columns opts_exclude : Option (List String)) :
    Except PyError (List (String × Option ColumnSpec)) :=
  match opts_model with
  | none => pure (declared_columns.map (fun p => (p.1, some p.2)))
  | some model => do
      let cols ← columns_for_model model opts_columns opts_exclude
      if !(metaclass_missing declared_columns cols).isEmpty then
        .error (.columnError (metaclass_missing declared_columns cols))
      else do
        let fixed ← fixupAll model declared_columns
        pure (fixed.foldl (fun d p => dictSet d p.1 (some p.2)) cols)

/-! ## Row rendering (`_get_processor_method`, `get_record_data`) -/

/-- A Python value as the rendering code handles it. -/
inductive PyVal where
  | str (s : String)
  | intV (n : Int)
  | noneV
  | listV (l : List PyVal)

mutual
/-- Python `six.text_type(value)` for the values above (the rendering of a
list element keeps the plain text of the element; the quoting that CPython
repr would add inside a list is not modelled, no claim stringifies a list).
-/
def pyStr : PyVal → String
  | .str s => s
  | .intV n => toString n
  | .noneV => "None"
  | .listV l => "[" ++ String.intercalate ", " (pyStrList l) ++ "]"

/-- `pyStr` mapped over the elements of a list value. -/
def pyStrList : List PyVal → List String
  | [] => []
  | v :: rest => pyStr v :: pyStrList rest
end

/-- Python `value[0]` applied when `value` is a tuple or a list; an empty
list raises `IndexError`, any non-list value is kept unchanged. -/
def pyExtractFirst (v : PyVal) : Except PyError PyVal :=
  match v with
  | .listV [] => .error (.indexError "list index out of range")
  | .listV (x :: _) => pure x
  | other => pure other

/-- A processor callable: it receives the default value and returns the
value to use instead. -/
def Proc : Type := PyVal → PyVal

/-- `column.processor`: either a callable or the name of an attribute of the
table. -/
inductive ProcRef where
  | callableRef (f : Proc)
  | nameRef (s : String)

/-- A model instance, reduced to the `obj.pk` the serializer reads. -/
structure PyObj where
  pk : PyVal

/-- A column as the rendering code reads it: `name`, `label` (empty string
models a falsy label), the optional `processor`, and its `value` method.
The `value` method lives in `columns.py`, which is not part of the sources;
modelled from the spec: column descriptors "know how to pull a display value
and a search/sort value from a model instance", so it is an opaque-to-us
function returning the `(display, plain)` pair. -/
structure RenderColumn where
  name : String
  label : String
  processor : Option ProcRef
  value : PyObj → PyVal × PyVal

/-- The name mangling `re.sub(r'[\W_]+', '_', name)` (over ASCII): every
maximal run of characters that are not alphanumeric — underscores included in
the runs — becomes a single underscore. The Boolean argument records whether
the previous character was part of such a run. -/
def mangleGo : List Char → Bool → List Char
  | [], _ => []
  | c :: rest, inRun =>
      if c.isAlpha || c.isDigit then c :: mangleGo rest false
      else if inRun then mangleGo rest true
      else '_' :: mangleGo rest true

/-- The mangled hook name component used by `_get_processor_method`. -/
def mangle (s : String) : String :=
  ⟨mangleGo s.data false⟩

/-- The hook name seed, `column.label or column.name`. -/
def hookSeed (col : RenderColumn) : String :=
  if col.label = "" then col.name else col.label

/-- The two `getattr(self, ..., None)` lookups of `_get_processor_method`
(mangled name first, column index second) followed, when a fallback callback
target exists, by the same two lookups on it. -/
def hook_name_lookup (selfAttrs : String → Option Proc)
    (fallback : Option (String → Option Proc)) (i : Nat) (mangled : String) :
    Option Proc :=
  match selfAttrs ("get_column_" ++ mangled ++ "_data") with
  | some f => some f
  | none =>
    match selfAttrs ("get_column_" ++ toString i ++ "_data") with
    | some f => some f
    | none =>
      match fallback with
      | none => none
      | some fb =>
        match fb ("get_column_" ++ mangled ++ "_data") with
        | some f => some f
        | none => fb ("get_column_" ++ toString i ++ "_data")

/-- `Datatable._get_processor_method(i, column)`: a truthy explicit processor
is used directly when callable and otherwise fetched with two-argument
`getattr` (raising `AttributeError` when absent); without one, the
name-mangled method and then the index method are looked up on the table,
and then, when a fallback callback target exists, both again on it;
`column.label or column.name` seeds the mangling. -/
def get_processor_method (selfAttrs : String → Option Proc)
    (fallback : Option (String → Option Proc)) (i : Nat) (col : RenderColumn) :
    Except PyError (Option Proc) :=
  match col.processor with
  | some (.callableRef f) => pure (some f)
  | some (.nameRef s) =>
      if s = "" then pure (hook_name_lookup selfAttrs fallback i (mangle (hookSeed col)))
      else
        match selfAttrs s with
        | some f => pure (some f)
        | none => .error (.attributeError s)
  | none => pure (hook_name_lookup selfAttrs fallback i (mangle (hookSeed col)))

/-- First element of a lookup chain that produced something. -/
def firstSome {α : Type} (l : List (Option α)) : Option α :=
  (l.filterMap id).head?

/-- The four name/index lookups as a first-match chain over the table and
the fallback target. -/
def hook_chain_lookup (selfAttrs : String → Option Proc)
    (fallback : Option (String → Option Proc)) (i : Nat) (mangled : String) :
    Option Proc :=
  firstSome
    [ selfAttrs ("get_column_" ++ mangled ++ "_data"),
      selfAttrs ("get_column_" ++ toString i ++ "_data"),
      (fallback.map (fun g => g ("get_column_" ++ mangled ++ "_data"))).join,
      (fallback.map (fun g => g ("get_column_" ++ toString i ++ "_data"))).join ]

/-- Modelled from the claim's words for the override-hook order: five
lookups, first-match wins, where the first lookup "resolves" the explicit
processor reference (directly when callable, else as a table attribute) and
a miss anywhere falls through to the next lookup; when none resolves there
is no override. -/
def claim_override_lookup (selfAttrs : String → Option Proc)
    (fallback : Option (String → Option Proc)) (i : Nat) (col : RenderColumn) :
    Option Proc :=
  firstSome
    [ (match col.processor with
       | some (.callableRef f) => some f
       | some (.nameRef s) => selfAttrs s
       | none => none),
      hook_chain_lookup selfAttrs fallback i (mangle (hookSeed col)) ]

/-- The amended override-hook order: a truthy explicit processor reference
short-circuits — used directly when callable, fetched as a table attribute
otherwise, `AttributeError` when that attribute is absent and no later
lookup is tried; without one, the four name/index lookups run first-match on
the table and then on the fallback target, and no hit means no override. -/
def ordered_hook_lookup (selfAttrs : String → Option Proc)
    (fallback : Option (String → Option Proc)) (i : Nat) (col : RenderColumn) :
    Except PyError (Option Proc) :=
  match col.processor with
  | some (.callableRef f) => pure (some f)
  | some (.nameRef s) =>
      if s = "" then pure (hook_chain_lookup selfAttrs fallback i (mangle (hookSeed col)))
      else
        match selfAttrs s with
        | some f => pure (some f)
        | none => .error (.attributeError s)
  | none => pure (hook_chain_lookup selfAttrs fallback i (mangle (hookSeed col)))

/-- The serialized record: `pk`, the empty `_extra_data` slot, and one cell
per column keyed by the stringified column index. -/
structure RecordData where
  pk : PyVal
  extra_data : List (String × PyVal)
  cells : List (String × String)

/-- The per-column loop of `Datatable.get_record_data`: take
`column.value(obj)[1]`, replace it with `processor(default_value=value)` when
a processor resolves, unwrap a tuple/list to its first element, and store the
text under the stringified index. -/
def renderCells (selfAttrs : String → Option Proc)
    (fallback : Option (String → Option Proc)) (obj : PyObj) :
    List RenderColumn → Nat → Except PyError (List (String × String))
  | [], _ => pure []
  | col :: rest, i => do
      let value0 := (col.value obj).2
      let proc? ← get_processor_method selfAttrs fallback i col
      let value1 := match proc? with
        | some p => p value0
        | none => value0
      let value2 ← pyExtractFirst value1
      let tail ← renderCells selfAttrs fallback obj rest (i + 1)
      pure ((toString i, pyStr value2) :: tail)

/-- `Datatable.get_record_data(obj)`. -/
def get_record_data (selfAttrs : String → Option Proc)
    (fallback : Option (String → Option Proc)) (cols : List RenderColumn)
    (obj : PyObj) : Except PyError RecordData := do
  let cells ← renderCells selfAttrs fallback obj cols 0
  pure ⟨obj.pk, [], cells⟩

/-! ## The `attributes` property -/

/-- The names bound in the scope of the `Datatable.attributes` property body:
the parameter `self` and the two locally assigned variables. -/
def attributes_local_names : List String :=
  ["self", "javascript_boolean", "attributes"]

/-- The module-level names of `datatableview/datatables.py`: imports and
top-level definitions. -/
def datatables_module_globals : List String :=
  ["re", "copy", "OrderedDict", "models", "flatatt", "render_to_string",
   "python_2_unicode_compatible", "six", "ColumnError", "columns",
   "normalize_config", "apply_options", "get_field_definition",
   "ColumnInfoTuple", "ColumnOrderingTuple", "COLUMN_TYPES", "pretty_name",
   "get_column_for_modelfield", "columns_for_model", "get_declared_columns",
   "DatatableOptions", "DatatableMetaclass", "Datatable"]

/-- The Python builtin namespace (the standard builtin callables and
constants a bare-name lookup can fall back to). -/
def python_builtin_names : List String :=
  ["abs", "all", "any", "ascii", "bin", "bool", "bytearray", "bytes",
   "callable", "chr", "classmethod", "compile", "complex", "delattr", "dict",
   "dir", "divmod", "enumerate", "filter", "float", "format",
   "frozenset", "getattr", "globals", "hasattr", "hash", "help", "hex", "id",
   "int", "isinstance", "issubclass", "iter", "len", "list", "locals", "map",
   "max", "memoryview", "min", "next", "object", "oct", "open", "ord", "pow",
   "property", "range", "repr", "reversed", "round", "set", "setattr",
   "slice", "sorted", "staticmethod", "str", "sum", "super", "tuple", "type",
   "vars", "zip", "Exception", "ValueError", "TypeError", "KeyError",
   "AttributeError", "IndexError", "NameError", "None", "True", "False"]

/-- Every name the body of the `attributes` property can resolve: locals,
then module globals, then builtins. -/
def attributes_scope_names : List String :=
  attributes_local_names ++ datatables_module_globals ++ python_builtin_names

/-- An environment for the property body built from some assignment of
values to the resolvable names; any other bare name is unbound. -/
def scopeEnv (σ : String → String) : String → Option String :=
  fun n => if attributes_scope_names.contains n then some (σ n) else none

/-- `','.join(map(six.text_type, self.ordering[name]))`. -/
def orderingTupleText (t : ColumnOrderingTuple) : String :=
  toString t.order ++ "," ++ toString t.column_index ++ "," ++ t.direction

/-- `Datatable.attributes`: the body first needs the value of the bare name
`name` (for `name not in self._meta.unsortable_columns`); an unbound `name`
raises `NameError`, otherwise the dictionary of display attributes is built
as the source writes it. -/
def datatable_attributes (env : String → Option String)
    (unsortable_columns hidden_columns : List String)
    (ordering : List (String × ColumnOrderingTuple)) :
    Except PyError (List (String × String)) :=
  match env "name" with
  | none => .error (.nameError "name")
  | some name =>
      let base :=
        [("data-sortable", if unsortable_columns.contains name then "false" else "true"),
         ("data-visible", if hidden_columns.contains name then "false" else "true")]
      match dictGet ordering name with
      | some t => pure (base ++ [("data-sorting", orderingTupleText t)])
      | none => pure base

/-! ## Per-instance deep copy of the assembled columns -/

/-- A store of column objects at natural-number addresses: Python object
identity made explicit. -/
abbrev Heap := List (Nat × ColumnSpec)

/-- Read the column object at an address. -/
def heapGet (h : Heap) (a : Nat) : Option ColumnSpec :=
  (h.find? (fun p => p.1 = a)).map (fun p => p.2)

/-- Mutate the column object at an address. -/
def heapSet : Heap → Nat → ColumnSpec → Heap
  | [], _, _ => []
  | p :: h, a, v => if p.1 = a then (a, v) :: h else p :: heapSet h a v

/-- The column used when a dangling address is read (never reached under the
validity hypotheses of the theorems). -/
def defaultColumnSpec : ColumnSpec :=
  ⟨"", "", [], .textColumn⟩

/-- Rebuild one step of a deep copy: prepend the copied name at its fresh
address to an already-copied tail. -/
def consCopy (n : String) (next : Nat) (out : Heap × List (String × Nat) × Nat) :
    Heap × List (String × Nat) × Nat :=
  (out.1, (n, next) :: out.2.1, out.2.2)

/-- `copy.deepcopy(self.base_columns)` over the explicit store: every name
keeps its position, and each column object is reproduced at a fresh address
(allocation counts up from `next`). -/
def deepcopy_columns : Heap → List (String × Nat) → Nat →
    Heap × List (String × Nat) × Nat
  | h, [], next => (h, [], next)
  | h, (n, a) :: rest, next =>
      consCopy n next
        (deepcopy_columns ((next, (heapGet h a).getD defaultColumnSpec) :: h)
          rest (next + 1))

/-- The `self.columns = copy.deepcopy(self.base_columns)` line of
`Datatable.__init__`: the only thing instance construction does to the
class-level assembled columns is deep-copy them. -/
def datatable_init_columns (classHeap : Heap) (base_columns : List (String × Nat))
    (next : Nat) : Heap × List (String × Nat) × Nat :=
  deepcopy_columns classHeap base_columns next

/-- Modelled from the spec: "the slice `[start_offset, start_offset +
page_length)` of the filtered/ordered record list" — the records at
positions `start_offset ≤ k < start_offset + page_length`. -/
def spec_page_slice {α : Type} (l : List α) (start_offset : Nat)
    (page_length : Int) : List α :=
  (l.drop start_offset).take page_length.toNat

/-- The direction the ordering loop derives from the raw (unstripped) entry:
`'desc' if name[0] == '-' else 'asc'`. -/
def dirOf (nm : String) : String :=
  match nm.data with
  | c :: _ => if c = '-' then "desc" else "asc"
  | [] => "asc"

/-- The exception-free core of the ordering loop, used to state what
`buildOrdering` computes on entries that take no `int()` path and hit no
empty-name `IndexError`. -/
def pureBuild (flat : List String) :
    List String → Nat → List (String × ColumnOrderingTuple) →
    List (String × ColumnOrderingTuple)
  | [], _, m => m
  | nm :: rest, i, m =>
      match flat.findIdx? (fun n => n = pyLstripPM nm) with
      | some idx =>
          pureBuild flat rest (i + 1)
            (dictSet m (pyLstripPM nm) ⟨i, (idx : Int), dirOf nm⟩)
      | none => pureBuild flat rest (i + 1) m

/-! ## Theorems -/

theorem dictGet_cons {α : Type} (k₁ k : String) (v₁ : α) (d : List (String × α)) :
    dictGet ((k₁, v₁) :: d) k = if k₁ = k then some v₁ else dictGet d k := by
  by_cases h : k₁ = k <;> simp [dictGet, List.find?_cons, h]

theorem dictGet_dictSet {α : Type} (d : List (String × α)) (k k' : String) (v : α) :
    dictGet (dictSet d k v) k' = if k = k' then some v else dictGet d k' := by
  induction d with
  | nil =>
      by_cases h : k = k' <;> simp [dictSet, dictGet_cons, dictGet, h]
  | cons p d ih =>
      rcases p with ⟨k₁, v₁⟩
      unfold dictSet
      by_cases hp : k₁ = k
      · subst hp
        rw [if_pos rfl, dictGet_cons, dictGet_cons]
        by_cases h : k₁ = k' <;> simp [h]
      · rw [if_neg hp, dictGet_cons, dictGet_cons, ih]
        by_cases h1 : k₁ = k'
        · have h2 : ¬(k = k') := fun h => hp (h1.trans h.symm)
          rw [if_pos h1, if_neg h2, if_pos h1]
        · by_cases h2 : k = k'
          · rw [if_neg h1, if_pos h2, if_pos h2]
          · rw [if_neg h1, if_neg h2, if_neg h2, if_neg h1]

theorem mem_of_findIdx_eq_some {l : List String} {k : String} {i j : Nat}
    (h : l.findIdx? (fun n => n = k) j = some i) : k ∈ l := by
  induction l generalizing i j with
  | nil => simp [List.findIdx?] at h
  | cons a rest ih =>
      rw [List.findIdx?_cons] at h
      by_cases ha : a = k
      · simp [ha]
      · rw [if_neg (by simp [ha])] at h
        exact List.mem_cons_of_mem _ (ih h)

theorem findIdx_eq_none_of_not_mem {l : List String} {k : String} {j : Nat}
    (h : k ∉ l) : l.findIdx? (fun n => n = k) j = none := by
  induction l generalizing j with
  | nil => simp [List.findIdx?]
  | cons a rest ih =>
      rw [List.findIdx?_cons]
      have ha : a ≠ k := fun hak => h (hak ▸ List.mem_cons_self a rest)
      rw [if_neg (by simp [ha])]
      exact ih (fun hm => h (List.mem_cons_of_mem _ hm))

theorem get_column_index_no_bang (flat : List String) (nm : String)
    (h : pyStartsWithBang nm = false) :
    get_column_index flat nm =
      Except.ok (match flat.findIdx? (fun n => n = nm) with
        | some i => (i : Int)
        | none => -1) := by
  unfold get_column_index
  rw [h]
  cases hidx : flat.findIdx? (fun n => n = nm) <;> simp [hidx, pure, Except.pure]

theorem buildOrdering_eq_pureBuild (flat : List String) (entries : List String)
    (i : Nat) (m : List (String × ColumnOrderingTuple))
    (h1 : ∀ e ∈ entries, pyStartsWithBang (pyLstripPM e) = false)
    (h2 : ∀ e ∈ entries, e ≠ "") :
    buildOrdering flat entries i m = Except.ok (pureBuild flat entries i m) := by
  induction entries generalizing i m with
  | nil => rfl
  | cons nm rest ih =>
      have hnb := h1 nm (List.mem_cons_self nm rest)
      have hne := h2 nm (List.mem_cons_self nm rest)
      have h1r : ∀ e ∈ rest, pyStartsWithBang (pyLstripPM e) = false :=
        fun e he => h1 e (List.mem_cons_of_mem _ he)
      have h2r : ∀ e ∈ rest, e ≠ "" :=
        fun e he => h2 e (List.mem_cons_of_mem _ he)
      rw [buildOrdering, pureBuild, get_column_index_no_bang flat _ hnb]
      cases hidx : List.findIdx? (fun n => n = pyLstripPM nm) flat with
      | none =>
          simp only [if_true]
          exact ih (i + 1) m h1r h2r
      | some idx =>
          simp only []
          rw [if_neg (by omega : ¬(((idx : Nat) : Int) = -1))]
          cases hnm : nm.data with
          | nil =>
              exact absurd (congrArg String.mk hnm) hne
          | cons c cs =>
              rw [show dirOf nm = if c = '-' then "desc" else "asc" from by
                unfold dirOf; rw [hnm]]
              exact ih (i + 1) _ h1r h2r

theorem pureBuild_not_touched (flat : List String) (entries : List String)
    (i : Nat) (m : List (String × ColumnOrderingTuple)) (k : String)
    (hk : ∀ e ∈ entries, pyLstripPM e ≠ k) :
    dictGet (pureBuild flat entries i m) k = dictGet m k := by
  induction entries generalizing i m with
  | nil => rfl
  | cons nm rest ih =>
      have hkr : ∀ e ∈ rest, pyLstripPM e ≠ k :=
        fun e he => hk e (List.mem_cons_of_mem _ he)
      unfold pureBuild
      cases hidx : List.findIdx? (fun n => n = pyLstripPM nm) flat 0 with
      | none => exact ih (i + 1) m hkr
      | some idx =>
          rw [ih (i + 1) _ hkr, dictGet_dictSet,
            if_neg (hk nm (List.mem_cons_self nm rest))]

theorem pureBuild_unrecognized (flat : List String) (entries : List String)
    (i : Nat) (m : List (String × ColumnOrderingTuple)) (k : String)
    (hk : k ∉ flat) (hm : dictGet m k = none) :
    dictGet (pureBuild flat entries i m) k = none := by
  induction entries generalizing i m with
  | nil => exact hm
  | cons nm rest ih =>
      unfold pureBuild
      cases hidx : List.findIdx? (fun n => n = pyLstripPM nm) flat 0 with
      | none => exact ih (i + 1) m hm
      | some idx =>
          apply ih (i + 1)
          rw [dictGet_dictSet]
          have hne : pyLstripPM nm ≠ k := by
            intro he
            exact hk (he ▸ mem_of_findIdx_eq_some hidx)
          rw [if_neg hne]
          exact hm

theorem pureBuild_last_occurrence (flat : List String) (entries : List String)
    (i : Nat) (m : List (String × ColumnOrderingTuple)) :
    ∀ (j : Nat) (hj : j < entries.length) (idx : Nat),
      List.findIdx? (fun n => n = pyLstripPM (entries.get ⟨j, hj⟩)) flat 0 = some idx →
      (∀ (j' : Nat) (hj' : j' < entries.length), j < j' →
        pyLstripPM (entries.get ⟨j', hj'⟩) ≠ pyLstripPM (entries.get ⟨j, hj⟩)) →
      dictGet (pureBuild flat entries i m) (pyLstripPM (entries.get ⟨j, hj⟩)) =
        some ⟨i + j, (idx : Int), dirOf (entries.get ⟨j, hj⟩)⟩ := by
  induction entries generalizing i m with
  | nil => intro j hj; exact absurd hj (by simp)
  | cons nm rest ih =>
      intro j hj idx hfound hlast
      cases j with
      | zero =>
          simp only [List.get] at hfound ⊢
          unfold pureBuild
          rw [hfound]
          have hnotin : ∀ e ∈ rest, pyLstripPM e ≠ pyLstripPM nm := by
            intro e he heq
            obtain ⟨⟨k, hk⟩, hek⟩ := List.mem_iff_get.mp he
            have h' := hlast (k + 1) (Nat.succ_lt_succ hk) (Nat.succ_pos k)
            rw [show (nm :: rest).get ⟨k + 1, Nat.succ_lt_succ hk⟩ =
              rest.get ⟨k, hk⟩ from rfl, hek] at h'
            exact h' heq
          rw [pureBuild_not_touched flat rest _ _ _ hnotin, dictGet_dictSet,
            if_pos rfl, Nat.add_zero]
      | succ j' =>
          simp only [List.get] at hfound ⊢
          unfold pureBuild
          have hj'' : j' < rest.length := Nat.lt_of_succ_lt_succ hj
          have hlast' : ∀ (k : Nat) (hk : k < rest.length), j' < k →
              pyLstripPM (rest.get ⟨k, hk⟩) ≠ pyLstripPM (rest.get ⟨j', hj''⟩) := by
            intro k hk hlt
            exact hlast (k + 1) (Nat.succ_lt_succ hk) (Nat.succ_lt_succ hlt)
          cases hidx : List.findIdx? (fun n => n = pyLstripPM nm) flat 0 with
          | none =>
              rw [show i + (j' + 1) = (i + 1) + j' from by omega]
              exact ih (i + 1) m j' hj'' idx hfound hlast'
          | some idx0 =>
              rw [show i + (j' + 1) = (i + 1) + j' from by omega]
              exact ih (i + 1) _ j' hj'' idx hfound hlast'

/-- C3 counterexample: the ordering entry `"!x"` — whose direction-stripped
name `"!x"` is not a recognized column name — is not silently skipped:
`get_column_index` runs `int("x")`, which raises `ValueError`, so the claim
that every unrecognized entry is skipped without raising fails. -/
theorem C3_counterexample :
    ("!x" ∉ ["a", "b"]) ∧ pyLstripPM "!x" = "!x" ∧
    configure_ordering ["a", "b"] (some ["!x"]) =
      .error (.valueError "x") := by
  exact ⟨by decide, by decide, by decide⟩

/-- C3 (amended): for ordering entries that are non-empty and whose stripped
name does not start with the index-reference marker `!` (entries starting
with `!` are parsed with `int()` and can raise `ValueError`), the loop
raises no exception, every entry whose stripped name is not a recognized
column name is skipped and the ordering state holds no entry for that name,
and every recognized name gets an entry recording the request order-index,
the column position, and the direction of its last occurrence in the spec. -/
theorem C3_ordering_state (flat : List String) (entries : List String)
    (h1 : ∀ e ∈ entries, pyStartsWithBang (pyLstripPM e) = false)
    (h2 : ∀ e ∈ entries, e ≠ "") :
    ∃ m, configure_ordering flat (some entries) = Except.ok m ∧
      (∀ e ∈ entries, pyLstripPM e ∉ flat → dictGet m (pyLstripPM e) = none) ∧
      (∀ (j : Nat) (hj : j < entries.length) (idx : Nat),
        List.findIdx? (fun n => n = pyLstripPM (entries.get ⟨j, hj⟩)) flat 0 = some idx →
        (∀ (j' : Nat) (hj' : j' < entries.length), j < j' →
          pyLstripPM (entries.get ⟨j', hj'⟩) ≠ pyLstripPM (entries.get ⟨j, hj⟩)) →
        dictGet m (pyLstripPM (entries.get ⟨j, hj⟩)) =
          some ⟨j, (idx : Int), dirOf (entries.get ⟨j, hj⟩)⟩) := by
  refine ⟨pureBuild flat entries 0 [], ?_, ?_, ?_⟩
  · cases entries with
    | nil => rfl
    | cons nm rest =>
        show (if (nm :: rest : List String).isEmpty = true then pure []
          else buildOrdering flat (nm :: rest) 0 []) = _
        rw [if_neg (by simp)]
        exact buildOrdering_eq_pureBuild flat (nm :: rest) 0 [] h1 h2
  · intro e _ hnm
    exact pureBuild_unrecognized flat entries 0 [] (pyLstripPM e) hnm rfl
  · intro j hj idx hfound hlast
    have h := pureBuild_last_occurrence flat entries 0 [] j hj idx hfound hlast
    simpa using h

/-- Witness for C3 (amended): columns `a, b`; ordering `["a", "x", "-a"]` —
`x` is unrecognized and absent from the state, and the repeated name `a`
gets the entry of its last occurrence (order-index 2, position 0,
descending). -/
theorem C3_ordering_state_witness :
    ∃ m, configure_ordering ["a", "b"] (some ["a", "x", "-a"]) = Except.ok m ∧
      (∀ e ∈ ["a", "x", "-a"], pyLstripPM e ∉ ["a", "b"] →
        dictGet m (pyLstripPM e) = none) ∧
      (∀ (j : Nat) (hj : j < (["a", "x", "-a"] : List String).length) (idx : Nat),
        List.findIdx?
          (fun n => n = pyLstripPM ((["a", "x", "-a"] : List String).get ⟨j, hj⟩))
          ["a", "b"] 0 = some idx →
        (∀ (j' : Nat) (hj' : j' < (["a", "x", "-a"] : List String).length), j < j' →
          pyLstripPM ((["a", "x", "-a"] : List String).get ⟨j', hj'⟩) ≠
            pyLstripPM ((["a", "x", "-a"] : List String).get ⟨j, hj⟩)) →
        dictGet m (pyLstripPM ((["a", "x", "-a"] : List String).get ⟨j, hj⟩)) =
          some ⟨j, (idx : Int), dirOf ((["a", "x", "-a"] : List String).get ⟨j, hj⟩)⟩) := by
  have h := C3_ordering_state ["a", "b"] ["a", "x", "-a"] (by decide) (by decide)
  obtain ⟨m, hm, habs, hpres⟩ := h
  exact ⟨m, hm, habs, hpres⟩

theorem drop_min_length {α : Type} (l : List α) (s : Nat) :
    l.drop (min s l.length) = l.drop s := by
  rcases Nat.le_total s l.length with h | h
  · rw [Nat.min_eq_left h]
  · rw [Nat.min_eq_right h, List.drop_eq_nil_of_le (Nat.le_refl _),
      List.drop_eq_nil_of_le h]

/-- C10: with the unpaged setting `page_length = -1`, the branch that assigns
`object_list` is skipped and `return object_list` raises `UnboundLocalError`,
so `get_records` fails for every unpaged configuration. -/
theorem C10_unpaged_raises_unbound_local {α β : Type} (records : List α)
    (start_offset : Int) (serialize : α → β) :
    get_current_page records (-1) start_offset =
      .error (.unboundLocalError "object_list") ∧
    get_records records (-1) start_offset serialize =
      .error (.unboundLocalError "object_list") := by
  constructor <;> simp [get_current_page, get_records, Except.map]

/-- C2 counterexample: with `start_offset = 20` and `page_length = -30` (a
value different from `-1`) over 50 records, the code returns the Python
slice `records[20:-10]` — twenty rows — not the empty interval
`[20, 20 + (-30))` the claim describes for every `page_length ≠ -1`. -/
theorem C2_counterexample :
    (-30 : Int) ≠ -1 ∧
    get_current_page (List.range 50) (-30) ((20 : Nat) : Int) ≠
      Except.ok (spec_page_slice (List.range 50) 20 (-30)) ∧
    get_current_page (List.range 50) (-30) ((20 : Nat) : Int) =
      Except.ok ((List.range 50).drop 20 |>.take 20) := by
  refine ⟨by decide, by decide, by decide⟩

/-- C2 (amended): for any non-negative `start_offset` and any
`page_length ≠ -1` with `start_offset + page_length ≥ 0` (in particular any
non-negative `page_length`), the current-page computation returns exactly the
slice `[start_offset, start_offset + page_length)` of the record list. -/
theorem C2_page_slice {α : Type} (l : List α) (start_offset : Nat)
    (page_length : Int) (h1 : page_length ≠ -1)
    (h2 : 0 ≤ (start_offset : Int) + page_length) :
    get_current_page l page_length ((start_offset : Nat) : Int) =
      Except.ok (spec_page_slice l start_offset page_length) := by
  unfold get_current_page
  rw [if_pos h1]
  have hlo : pyBound l.length ((start_offset : Nat) : Int) =
      min start_offset l.length := by
    unfold pyBound
    rw [if_neg (by omega)]
    simp
  have hhi : pyBound l.length (((start_offset : Nat) : Int) + page_length) =
      min ((start_offset : Int) + page_length).toNat l.length := by
    unfold pyBound
    rw [if_neg (by omega)]
  congr 1
  unfold pySlice spec_page_slice
  rw [hlo, hhi, drop_min_length, List.take_eq_take]
  have hcast := Int.toNat_of_nonneg h2
  simp only [List.length_drop]
  omega

/-- Witness for C2 (amended): `page_length = 10`, `start_offset = 20`, fifty
records, giving exactly rows 20–29. -/
theorem C2_page_slice_witness :
    ((10 : Int) ≠ -1) ∧ (0 ≤ ((20 : Nat) : Int) + 10) ∧
    get_current_page (List.range 50) 10 ((20 : Nat) : Int) =
      Except.ok (spec_page_slice (List.range 50) 20 10) ∧
    spec_page_slice (List.range 50) 20 10 =
      [20, 21, 22, 23, 24, 25, 26, 27, 28, 29] :=
  ⟨by decide, by decide,
   C2_page_slice (List.range 50) 20 10 (by decide) (by decide), by decide⟩

/-- C9: the property body of `Datatable.attributes` never binds the bare name
`name`, `name` resolves in no enclosing scope (locals, module globals,
builtins), so accessing the property raises `NameError` whatever the
configuration lists hold; the display attributes can never be produced
through it. -/
theorem C9_attributes_raises_name_error (σ : String → String)
    (unsortable hidden : List String)
    (ordering : List (String × ColumnOrderingTuple)) :
    attributes_scope_names.contains "name" = false ∧
    datatable_attributes (scopeEnv σ) unsortable hidden ordering =
      .error (.nameError "name") := by
  refine ⟨by decide, ?_⟩
  unfold datatable_attributes scopeEnv
  rw [show (attributes_scope_names.contains "name") = false from by decide]
  simp

theorem mem_of_dictGet_eq_some {α : Type} {d : List (String × α)} {k : String}
    {v : α} (h : dictGet d k = some v) : (k, v) ∈ d := by
  unfold dictGet at h
  cases hf : d.find? (fun p => p.1 = k) with
  | none => rw [hf] at h; simp at h
  | some p =>
      rw [hf] at h
      have hm := List.mem_of_find?_eq_some hf
      have hp := List.find?_some hf
      have hk : p.1 = k := by simpa using hp
      have hv : p.2 = v := by simpa using h
      have : p = (k, v) := by
        cases p
        simp_all
      exact this ▸ hm

theorem foldl_dictSet_get_none {α : Type} (lp : List (String × α))
    (d : List (String × α)) (k : String)
    (h : ∀ p ∈ lp, p.1 ≠ k) (hd : dictGet d k = none) :
    dictGet (lp.foldl (fun d p => dictSet d p.1 p.2) d) k = none := by
  induction lp generalizing d with
  | nil => exact hd
  | cons p rest ih =>
      refine ih _ (fun q hq => h q (List.mem_cons_of_mem _ hq)) ?_
      rw [dictGet_dictSet, if_neg (h p (List.mem_cons_self p rest)), hd]

theorem foldl_dictSet_get_const {α : Type} (lp : List (String × α))
    (d : List (String × α)) (k : String) (v : α)
    (huniq : ∀ p ∈ lp, p.1 = k → p.2 = v)
    (hbase : dictGet d k = some v ∨ (k, v) ∈ lp) :
    dictGet (lp.foldl (fun d p => dictSet d p.1 p.2) d) k = some v := by
  induction lp generalizing d with
  | nil =>
      rcases hbase with hd | hm
      · exact hd
      · exact absurd hm (List.not_mem_nil _)
  | cons p rest ih =>
      have huniqr : ∀ q ∈ rest, q.1 = k → q.2 = v :=
        fun q hq => huniq q (List.mem_cons_of_mem _ hq)
      have hstep : dictGet (dictSet d p.1 p.2) k = some v ∨ (k, v) ∈ rest := by
        rcases hbase with hd | hm
        · left
          rw [dictGet_dictSet]
          by_cases hpk : p.1 = k
          · rw [if_pos hpk, huniq p (List.mem_cons_self p rest) hpk]
          · rw [if_neg hpk, hd]
        · rcases List.mem_cons.mp hm with heq | hmr
          · left
            rw [← heq, dictGet_dictSet, if_pos rfl]
          · right; exact hmr
      exact ih _ huniqr hstep

theorem dictGet_odFromList_none {α : Type} (l : List (String × α)) (k : String)
    (h : ∀ p ∈ l, p.1 ≠ k) : dictGet (odFromList l) k = none :=
  foldl_dictSet_get_none l [] k h rfl

theorem dictGet_odFromList_const {α : Type} (l : List (String × α)) (k : String)
    (v : α) (hm : (k, v) ∈ l) (huniq : ∀ p ∈ l, p.1 = k → p.2 = v) :
    dictGet (odFromList l) k = some v :=
  foldl_dictSet_get_const l [] k v huniq (Or.inr hm)

theorem cfmFieldList_ok (fields exclude : Option (List String))
    (l : List ModelField)
    (hmap : ∀ f ∈ l, cfmSkipsByFields fields f.name = false →
      (pyTruthyList exclude && (exclude.getD []).contains f.name) = false →
      (get_column_for_modelfield f.ftype).isSome) :
    ∃ fl, cfmFieldList fields exclude l = Except.ok fl ∧
      ∀ p ∈ fl, ∃ f ∈ l, p.1 = f.name := by
  induction l with
  | nil => exact ⟨[], rfl, by simp⟩
  | cons f rest ih =>
      have hmapr : ∀ g ∈ rest, cfmSkipsByFields fields g.name = false →
          (pyTruthyList exclude && (exclude.getD []).contains g.name) = false →
          (get_column_for_modelfield g.ftype).isSome :=
        fun g hg => hmap g (List.mem_cons_of_mem _ hg)
      obtain ⟨fl, hfl, hkeys⟩ := ih hmapr
      by_cases hskip : cfmSkipsByFields fields f.name = true
      · refine ⟨fl, ?_, fun p hp => ?_⟩
        · unfold cfmFieldList
          rw [if_pos hskip]
          exact hfl
        · obtain ⟨g, hg, hpg⟩ := hkeys p hp
          exact ⟨g, List.mem_cons_of_mem _ hg, hpg⟩
      · have hskip' := Bool.eq_false_iff.mpr hskip
        by_cases hexc :
            (pyTruthyList exclude && (exclude.getD []).contains f.name) = true
        · refine ⟨fl, ?_, fun p hp => ?_⟩
          · unfold cfmFieldList
            rw [if_neg hskip, if_pos hexc]
            exact hfl
          · obtain ⟨g, hg, hpg⟩ := hkeys p hp
            exact ⟨g, List.mem_cons_of_mem _ hg, hpg⟩
        · have hexc' := Bool.eq_false_iff.mpr hexc
          have hsome := hmap f (List.mem_cons_self f rest) hskip' hexc'
          cases hct : get_column_for_modelfield f.ftype with
          | none => rw [hct] at hsome; simp at hsome
          | some ct =>
              refine ⟨(f.name, ⟨f.name, pretty_name f.verbose_name, [f.name], ct⟩) :: fl,
                ?_, fun p hp => ?_⟩
              · unfold cfmFieldList
                rw [if_neg hskip, if_neg hexc, hct, hfl]
                rfl
              · rcases List.mem_cons.mp hp with heq | hmr
                · exact ⟨f, List.mem_cons_self f rest, by rw [heq]⟩
                · obtain ⟨g, hg, hpg⟩ := hkeys p hmr
                  exact ⟨g, List.mem_cons_of_mem _ hg, hpg⟩

theorem mem_insertField (x a : ModelField) (l : List ModelField) :
    a ∈ insertField x l ↔ a = x ∨ a ∈ l := by
  induction l with
  | nil => simp [insertField]
  | cons y ys ih =>
      unfold insertField
      by_cases hc : y.creation_counter < x.creation_counter
      · rw [if_pos hc]
        simp only [List.mem_cons, ih]
        tauto
      · rw [if_neg hc]
        simp only [List.mem_cons]

theorem mem_sortFields (a : ModelField) (l : List ModelField) :
    a ∈ sortFields l ↔ a ∈ l := by
  induction l with
  | nil => simp [sortFields]
  | cons x xs ih =>
      unfold sortFields at ih ⊢
      simp only [List.foldr_cons, mem_insertField, List.mem_cons, ih]

/-- C1 counterexample: include list `["bogus"]` with `"bogus"` also in the
exclude list — `"bogus"` matches neither the single model field `a` nor any
declared column, yet class creation succeeds with an empty column mapping
instead of raising `ColumnError`, because the exclude filter removes the
unresolvable name before the check. -/
theorem C1_counterexample :
    ("bogus" ∈ ["bogus"]) ∧ ("bogus" ∉ ["a"]) ∧
    (List.map ModelField.name [⟨"a", "a", 0, FieldType.charField⟩] = ["a"]) ∧
    datatable_metaclass_new [] (some ⟨[⟨"a", "a", 0, .charField⟩]⟩)
      (some ["bogus"]) (some ["bogus"]) = Except.ok [] :=
  ⟨by decide, by decide, by decide, by rfl⟩

/-- C1 (amended): if the explicit include list contains a name that survives
the exclude filter and matches neither a model field nor a declared column
(and every field selected by the include/exclude tests has a mapped column
type, so the field loop itself does not fail first), then class creation
raises `ColumnError`, and the error names the unresolvable column. -/
theorem C1_unknown_column_raises (declared : List (String × ColumnSpec))
    (model : ModelM) (includeList : List String)
    (excludeOpt : Option (List String)) (name : String)
    (hin : name ∈ includeList)
    (hex : (pyTruthyList excludeOpt && (excludeOpt.getD []).contains name) = false)
    (hfield : ∀ f ∈ model.fields, f.name ≠ name)
    (hdecl : ∀ d ∈ declared, d.1 ≠ name)
    (hmapped : ∀ f ∈ model.fields, includeList.contains f.name = true →
      (pyTruthyList excludeOpt && (excludeOpt.getD []).contains f.name) = false →
      (get_column_for_modelfield f.ftype).isSome) :
    ∃ missing,
      datatable_metaclass_new declared (some model) (some includeList) excludeOpt =
        .error (.columnError missing) ∧ name ∈ missing := by
  have hmap : ∀ f ∈ sortFields model.fields,
      cfmSkipsByFields (some includeList) f.name = false →
      (pyTruthyList excludeOpt && (excludeOpt.getD []).contains f.name) = false →
      (get_column_for_modelfield f.ftype).isSome := by
    intro f hf hc he
    refine hmapped f ((mem_sortFields f model.fields).mp hf) ?_ he
    simpa [cfmSkipsByFields] using hc
  obtain ⟨fl, hfl, hkeys⟩ := cfmFieldList_ok (some includeList) excludeOpt
    (sortFields model.fields) hmap
  have hflname : ∀ p ∈ fl, p.1 ≠ name := by
    intro p hp
    obtain ⟨f, hf, hpf⟩ := hkeys p hp
    rw [hpf]
    exact hfield f ((mem_sortFields f model.fields).mp hf)
  have hfdnone : dictGet (odFromList fl) name = none :=
    dictGet_odFromList_none fl name hflname
  set pairs := includeList.filterMap (fun f =>
    if !(pyTruthyList excludeOpt) || !((excludeOpt.getD []).contains f) then
      some (f, dictGet (odFromList fl) f)
    else none) with hpairs
  have hsurv : (!(pyTruthyList excludeOpt) ||
      !((excludeOpt.getD []).contains name)) = true := by
    cases hpt : pyTruthyList excludeOpt <;>
      cases hct : (excludeOpt.getD []).contains name <;> simp_all
  have hmempairs : (name, (none : Option ColumnSpec)) ∈ pairs := by
    rw [hpairs]
    refine List.mem_filterMap.mpr ⟨name, hin, ?_⟩
    rw [if_pos hsurv, hfdnone]
  have huniq : ∀ p ∈ pairs, p.1 = name → p.2 = none := by
    intro p hp hpk
    rw [hpairs] at hp
    obtain ⟨f, _, hf2⟩ := List.mem_filterMap.mp hp
    by_cases hc : (!(pyTruthyList excludeOpt) ||
        !((excludeOpt.getD []).contains f)) = true
    · rw [if_pos hc] at hf2
      cases hf2
      have hpk' : f = name := hpk
      show dictGet (odFromList fl) f = none
      rw [hpk']
      exact hfdnone
    · rw [if_neg hc] at hf2
      exact absurd hf2 (by simp)
  have hcolget : dictGet (odFromList pairs) name = some none :=
    dictGet_odFromList_const pairs name none hmempairs huniq
  have hcolmem : (name, (none : Option ColumnSpec)) ∈ odFromList pairs :=
    mem_of_dictGet_eq_some hcolget
  have hcfm : columns_for_model model (some includeList) excludeOpt =
      Except.ok (odFromList pairs) := by
    unfold columns_for_model
    rw [hfl]
    have htruthy : pyTruthyList (some includeList) = true := by
      cases includeList with
      | nil => exact absurd hin (List.not_mem_nil name)
      | cons a l => simp [pyTruthyList]
    show (if pyTruthyList (some includeList) = true then _ else _) = _
    rw [if_pos htruthy, hpairs]
    rfl
  have hnm : name ∈ ((odFromList pairs).filter
      (fun p => p.2.isNone)).map Prod.fst := by
    refine List.mem_map.mpr ⟨(name, none), ?_, rfl⟩
    exact List.mem_filter.mpr ⟨hcolmem, by simp⟩
  have hnodecl : (declared.any (fun d => d.1 = name)) = false := by
    rw [List.any_eq_false]
    intro d hd
    simpa using hdecl d hd
  set missing0 := metaclass_missing declared (odFromList pairs) with hmissing0
  have hnm2 : name ∈ missing0 := by
    rw [hmissing0]
    unfold metaclass_missing
    rw [List.mem_dedup]
    exact List.mem_filter.mpr ⟨hnm, by simp [hnodecl]⟩
  have hne : missing0.isEmpty = false := by
    cases hmx : missing0 with
    | nil => rw [hmx] at hnm2; exact absurd hnm2 (List.not_mem_nil name)
    | cons a l => simp
  refine ⟨missing0, ?_, hnm2⟩
  simp only [datatable_metaclass_new]
  rw [hcfm]
  show (if (!missing0.isEmpty) = true then _ else _) = _
  rw [hne]
  rfl

/-- Witness for C1 (amended): include list `["bogus", "a"]` on a model with
the single char field `a` and no declared columns raises
`ColumnError(["bogus"])`. -/
theorem C1_unknown_column_raises_witness :
    ∃ missing,
      datatable_metaclass_new [] (some ⟨[⟨"a", "a", 0, .charField⟩]⟩)
        (some ["bogus", "a"]) none = .error (.columnError missing) ∧
      "bogus" ∈ missing :=
  C1_unknown_column_raises [] ⟨[⟨"a", "a", 0, .charField⟩]⟩ ["bogus", "a"] none
    "bogus" (by decide) (by decide) (by decide) (by decide) (by decide)

theorem ok_bind {ε α β : Type} (a : α) (f : α → Except ε β) :
    (Except.ok a >>= f) = f a := rfl

theorem error_bind {ε α β : Type} (e : ε) (f : α → Except ε β) :
    (Except.error e >>= f : Except ε β) = Except.error e := rfl

/-- C7: a model with exactly three fields of mapped column types, in
creation order, and a table class with no declared columns and no
include/exclude lists assembles exactly three auto-derived columns, one per
field, in the model's field order, each with `sources=[field name]` and the
prettified `verbose_name` as label. -/
theorem C7_three_fields_three_columns
    (n1 n2 n3 v1 v2 v3 : String) (c1 c2 c3 : Nat) (t1 t2 t3 : FieldType)
    (u1 u2 u3 : ColumnType)
    (hle1 : c1 ≤ c2) (hle2 : c2 ≤ c3)
    (hd12 : n1 ≠ n2) (hd13 : n1 ≠ n3) (hd23 : n2 ≠ n3)
    (hm1 : get_column_for_modelfield t1 = some u1)
    (hm2 : get_column_for_modelfield t2 = some u2)
    (hm3 : get_column_for_modelfield t3 = some u3) :
    datatable_metaclass_new []
      (some ⟨[⟨n1, v1, c1, t1⟩, ⟨n2, v2, c2, t2⟩, ⟨n3, v3, c3, t3⟩]⟩) none none =
      Except.ok
        [(n1, some ⟨n1, pretty_name v1, [n1], u1⟩),
         (n2, some ⟨n2, pretty_name v2, [n2], u2⟩),
         (n3, some ⟨n3, pretty_name v3, [n3], u3⟩)] := by
  have hs : sortFields [⟨n1, v1, c1, t1⟩, ⟨n2, v2, c2, t2⟩, ⟨n3, v3, c3, t3⟩] =
      [⟨n1, v1, c1, t1⟩, ⟨n2, v2, c2, t2⟩, ⟨n3, v3, c3, t3⟩] := by
    simp [sortFields, insertField, Nat.not_lt.mpr hle1, Nat.not_lt.mpr hle2]
  have hc : cfmFieldList none none
      [(⟨n1, v1, c1, t1⟩ : ModelField), ⟨n2, v2, c2, t2⟩, ⟨n3, v3, c3, t3⟩] =
      Except.ok
        [(n1, ⟨n1, pretty_name v1, [n1], u1⟩),
         (n2, ⟨n2, pretty_name v2, [n2], u2⟩),
         (n3, ⟨n3, pretty_name v3, [n3], u3⟩)] := by
    simp [cfmFieldList, cfmSkipsByFields, pyTruthyList, hm1, hm2, hm3,
      bind, Except.bind, pure, Except.pure]
  have hod : odFromList
      [(n1, (⟨n1, pretty_name v1, [n1], u1⟩ : ColumnSpec)),
       (n2, ⟨n2, pretty_name v2, [n2], u2⟩),
       (n3, ⟨n3, pretty_name v3, [n3], u3⟩)] =
      [(n1, ⟨n1, pretty_name v1, [n1], u1⟩),
       (n2, ⟨n2, pretty_name v2, [n2], u2⟩),
       (n3, ⟨n3, pretty_name v3, [n3], u3⟩)] := by
    simp [odFromList, dictSet, hd12, hd13, hd23]
  have hcfm : columns_for_model
      ⟨[⟨n1, v1, c1, t1⟩, ⟨n2, v2, c2, t2⟩, ⟨n3, v3, c3, t3⟩]⟩ none none =
      Except.ok
        [(n1, some ⟨n1, pretty_name v1, [n1], u1⟩),
         (n2, some ⟨n2, pretty_name v2, [n2], u2⟩),
         (n3, some ⟨n3, pretty_name v3, [n3], u3⟩)] := by
    unfold columns_for_model
    rw [show (⟨[⟨n1, v1, c1, t1⟩, ⟨n2, v2, c2, t2⟩, ⟨n3, v3, c3, t3⟩]⟩ :
      ModelM).fields = [⟨n1, v1, c1, t1⟩, ⟨n2, v2, c2, t2⟩, ⟨n3, v3, c3, t3⟩]
      from rfl, hs, hc, ok_bind]
    rw [show pyTruthyList none = false from rfl]
    rw [hod]
    rfl
  simp only [datatable_metaclass_new]
  rw [hcfm, ok_bind]
  rw [show (metaclass_missing []
    [(n1, some (⟨n1, pretty_name v1, [n1], u1⟩ : ColumnSpec)),
     (n2, some ⟨n2, pretty_name v2, [n2], u2⟩),
     (n3, some ⟨n3, pretty_name v3, [n3], u3⟩)]).isEmpty = true from by
      simp [metaclass_missing]]
  rfl

/-- Witness for C7: fields `a`, `b`, `c` (char, integer, date) assemble to
exactly the three expected columns in order. -/
theorem C7_three_fields_three_columns_witness :
    datatable_metaclass_new []
      (some ⟨[⟨"a", "a", 0, .charField⟩, ⟨"b", "b", 1, .integerField⟩,
        ⟨"c", "c", 2, .dateField⟩]⟩) none none =
      Except.ok
        [("a", some ⟨"a", pretty_name "a", ["a"], .textColumn⟩),
         ("b", some ⟨"b", pretty_name "b", ["b"], .integerColumn⟩),
         ("c", some ⟨"c", pretty_name "c", ["c"], .dateColumn⟩)] :=
  C7_three_fields_three_columns "a" "b" "c" "a" "b" "c" 0 1 2
    .charField .integerField .dateField .textColumn .integerColumn .dateColumn
    (by decide) (by decide) (by decide) (by decide) (by decide)
    (by decide) (by decide) (by decide)

theorem fixupAll_keys (model : ModelM) (l fixed : List (String × ColumnSpec))
    (h : fixupAll model l = Except.ok fixed) :
    fixed.map Prod.fst = l.map Prod.fst := by
  induction l generalizing fixed with
  | nil =>
      cases h
      rfl
  | cons p rest ih =>
      unfold fixupAll at h
      cases hfx : fixup_declared model p.1 p.2 with
      | error e => rw [hfx, error_bind] at h; exact absurd h (by simp)
      | ok c =>
          rw [hfx, ok_bind] at h
          cases hrest : fixupAll model rest with
          | error e => rw [hrest, error_bind] at h; exact absurd h (by simp)
          | ok tail =>
              rw [hrest, ok_bind] at h
              have hfix : fixed = (p.1, c) :: tail := by
                simpa [pure, Except.pure] using h.symm
              rw [hfix]
              simp [ih tail hrest]

theorem fixupAll_mem (model : ModelM) (l fixed : List (String × ColumnSpec))
    (nm : String) (col : ColumnSpec)
    (h : fixupAll model l = Except.ok fixed) (hm : (nm, col) ∈ l) :
    ∃ c', fixup_declared model nm col = Except.ok c' ∧ (nm, c') ∈ fixed := by
  induction l generalizing fixed with
  | nil => exact absurd hm (List.not_mem_nil _)
  | cons p rest ih =>
      unfold fixupAll at h
      cases hfx : fixup_declared model p.1 p.2 with
      | error e => rw [hfx, error_bind] at h; exact absurd h (by simp)
      | ok c =>
          rw [hfx, ok_bind] at h
          cases hrest : fixupAll model rest with
          | error e => rw [hrest, error_bind] at h; exact absurd h (by simp)
          | ok tail =>
              rw [hrest, ok_bind] at h
              have hfix : fixed = (p.1, c) :: tail := by
                simpa [pure, Except.pure] using h.symm
              rcases List.mem_cons.mp hm with heq | hmr
              · refine ⟨c, ?_, ?_⟩
                · rw [← heq] at hfx
                  exact hfx
                · rw [hfix, ← heq]
                  exact List.mem_cons_self _ _
              · obtain ⟨c', hc1, hc2⟩ := ih tail hrest hmr
                exact ⟨c', hc1, by rw [hfix]; exact List.mem_cons_of_mem _ hc2⟩

theorem dictGet_foldl_update_not_mem (l : List (String × ColumnSpec))
    (d : List (String × Option ColumnSpec)) (k : String)
    (h : ∀ p ∈ l, p.1 ≠ k) :
    dictGet (l.foldl (fun d p => dictSet d p.1 (some p.2)) d) k = dictGet d k := by
  induction l generalizing d with
  | nil => rfl
  | cons p rest ih =>
      rw [List.foldl_cons, ih _ (fun q hq => h q (List.mem_cons_of_mem _ hq)),
        dictGet_dictSet, if_neg (h p (List.mem_cons_self p rest))]

theorem dictGet_foldl_update_mem (l : List (String × ColumnSpec))
    (d : List (String × Option ColumnSpec)) (k : String) (v : ColumnSpec)
    (hnd : (l.map Prod.fst).Nodup) (hm : (k, v) ∈ l) :
    dictGet (l.foldl (fun d p => dictSet d p.1 (some p.2)) d) k = some (some v) := by
  induction l generalizing d with
  | nil => exact absurd hm (List.not_mem_nil _)
  | cons p rest ih =>
      rw [List.foldl_cons]
      rcases List.mem_cons.mp hm with heq | hmr
      · have hknotin : ∀ q ∈ rest, q.1 ≠ k := by
          intro q hq hqk
          have hthis := (List.nodup_cons.mp hnd).1
          rw [← heq] at hthis
          have hq1 : q.1 ∈ rest.map Prod.fst := List.mem_map_of_mem Prod.fst hq
          rw [hqk] at hq1
          exact hthis hq1
        rw [dictGet_foldl_update_not_mem rest _ k hknotin, ← heq,
          dictGet_dictSet, if_pos rfl]
      · exact ih _ (List.nodup_cons.mp hnd).2 hmr

/-- C8: when class creation with a configured model succeeds, every
explicitly declared column name maps in `base_columns` to the declared
column object (as patched by the metaclass: name set, falsy sources/label
defaulted) — never to the auto-derived one — and every name with no
declaration keeps exactly the value `columns_for_model` derived for it. -/
theorem C8_declared_wins (declared : List (String × ColumnSpec)) (model : ModelM)
    (oc oe : Option (List String)) (bc : List (String × Option ColumnSpec))
    (hok : datatable_metaclass_new declared (some model) oc oe = Except.ok bc)
    (hnd : (declared.map Prod.fst).Nodup) :
    ∃ cols, columns_for_model model oc oe = Except.ok cols ∧
      (∀ nm col, (nm, col) ∈ declared →
        ∃ c', fixup_declared model nm col = Except.ok c' ∧
          dictGet bc nm = some (some c')) ∧
      (∀ k, (∀ d ∈ declared, d.1 ≠ k) → dictGet bc k = dictGet cols k) := by
  simp only [datatable_metaclass_new] at hok
  cases hcfm : columns_for_model model oc oe with
  | error e => rw [hcfm, error_bind] at hok; exact absurd hok (by simp)
  | ok cols =>
      rw [hcfm, ok_bind] at hok
      cases hme : (metaclass_missing declared cols).isEmpty with
      | false =>
          rw [hme] at hok
          exact absurd hok (by simp)
      | true =>
          rw [hme] at hok
          simp only [Bool.not_true, Bool.false_eq_true, if_false] at hok
          cases hfx : fixupAll model declared with
          | error e => rw [hfx, error_bind] at hok; exact absurd hok (by simp)
          | ok fixed =>
              rw [hfx, ok_bind] at hok
              have hbc : bc = fixed.foldl
                  (fun d p => dictSet d p.1 (some p.2)) cols := by
                simpa [pure, Except.pure] using hok.symm
              have hkeys := fixupAll_keys model declared fixed hfx
              have hndf : (fixed.map Prod.fst).Nodup := by
                rw [hkeys]; exact hnd
              refine ⟨cols, rfl, ?_, ?_⟩
              · intro nm col hm
                obtain ⟨c', hc1, hc2⟩ := fixupAll_mem model declared fixed nm col hfx hm
                refine ⟨c', hc1, ?_⟩
                rw [hbc]
                exact dictGet_foldl_update_mem fixed cols nm c' hndf hc2
              · intro k hk
                rw [hbc]
                refine dictGet_foldl_update_not_mem fixed cols k ?_
                intro p hp
                have : p.1 ∈ declared.map Prod.fst := by
                  rw [← hkeys]
                  exact List.mem_map_of_mem Prod.fst hp
                obtain ⟨d, hd, hd2⟩ := List.mem_map.mp this
                rw [← hd2]
                exact hk d hd

/-- Witness for C8: a declared text column under the model-field name `a`
wins over the auto-derived column; the undeclared field `b` keeps its
auto-derived column. -/
theorem C8_declared_wins_witness :
    ∃ cols, columns_for_model ⟨[⟨"a", "Va", 0, .charField⟩,
        ⟨"b", "Vb", 1, .integerField⟩]⟩ none none = Except.ok cols ∧
      (∀ nm col, (nm, col) ∈ [("a", (⟨"", "Custom", ["x"], .textColumn⟩ : ColumnSpec))] →
        ∃ c', fixup_declared ⟨[⟨"a", "Va", 0, .charField⟩,
            ⟨"b", "Vb", 1, .integerField⟩]⟩ nm col = Except.ok c' ∧
          dictGet [("a", some (⟨"a", "Custom", ["x"], .textColumn⟩ : ColumnSpec)),
            ("b", some ⟨"b", "Vb", ["b"], .integerColumn⟩)] nm = some (some c')) ∧
      (∀ k, (∀ d ∈ [("a", (⟨"", "Custom", ["x"], .textColumn⟩ : ColumnSpec))], d.1 ≠ k) →
        dictGet [("a", some (⟨"a", "Custom", ["x"], .textColumn⟩ : ColumnSpec)),
          ("b", some ⟨"b", "Vb", ["b"], .integerColumn⟩)] k = dictGet cols k) :=
  C8_declared_wins [("a", ⟨"", "Custom", ["x"], .textColumn⟩)]
    ⟨[⟨"a", "Va", 0, .charField⟩, ⟨"b", "Vb", 1, .integerField⟩]⟩ none none
    [("a", some ⟨"a", "Custom", ["x"], .textColumn⟩),
     ("b", some ⟨"b", "Vb", ["b"], .integerColumn⟩)]
    (by rfl) (by decide)

theorem consCopy_fst (n : String) (next : Nat) (out : Heap × List (String × Nat) × Nat) :
    (consCopy n next out).1 = out.1 := rfl

theorem consCopy_cols (n : String) (next : Nat) (out : Heap × List (String × Nat) × Nat) :
    (consCopy n next out).2.1 = (n, next) :: out.2.1 := rfl

theorem consCopy_next (n : String) (next : Nat) (out : Heap × List (String × Nat) × Nat) :
    (consCopy n next out).2.2 = out.2.2 := rfl

theorem heapGet_cons (m b : Nat) (v : ColumnSpec) (h : Heap) :
    heapGet ((m, v) :: h) b = if m = b then some v else heapGet h b := by
  by_cases hm : m = b <;> simp [heapGet, List.find?_cons, hm]

theorem heapGet_heapSet_ne (h : Heap) (a : Nat) (v : ColumnSpec) (b : Nat)
    (hne : a ≠ b) : heapGet (heapSet h a v) b = heapGet h b := by
  induction h with
  | nil => rfl
  | cons p h ih =>
      rcases p with ⟨m, w⟩
      unfold heapSet
      by_cases hm : m = a
      · rw [if_pos hm, heapGet_cons, heapGet_cons, if_neg hne, hm,
          if_neg hne]
      · rw [if_neg hm, heapGet_cons, heapGet_cons, ih]

theorem deepcopy_next (cols : List (String × Nat)) (h : Heap) (next : Nat) :
    (deepcopy_columns h cols next).2.2 = next + cols.length := by
  induction cols generalizing h next with
  | nil => rfl
  | cons p rest ih =>
      rcases p with ⟨n, a⟩
      rw [deepcopy_columns, consCopy_next, ih, List.length_cons]
      omega

theorem deepcopy_addr_range (cols : List (String × Nat)) (h : Heap)
    (next : Nat) :
    ∀ p ∈ (deepcopy_columns h cols next).2.1,
      next ≤ p.2 ∧ p.2 < next + cols.length := by
  induction cols generalizing h next with
  | nil => intro p hp; exact absurd hp (List.not_mem_nil p)
  | cons q rest ih =>
      rcases q with ⟨n, a⟩
      rw [deepcopy_columns, consCopy_cols]
      intro p hp
      simp only [List.length_cons]
      rcases List.mem_cons.mp hp with heq | hmr
      · rw [heq]
        simp only
        omega
      · have hr := ih ((next, (heapGet h a).getD defaultColumnSpec) :: h)
          (next + 1) p hmr
        omega

theorem deepcopy_frame (cols : List (String × Nat)) (h : Heap) (next : Nat)
    (b : Nat) (hb : b < next) :
    heapGet (deepcopy_columns h cols next).1 b = heapGet h b := by
  induction cols generalizing h next with
  | nil => rfl
  | cons q rest ih =>
      rcases q with ⟨n, a⟩
      rw [deepcopy_columns, consCopy_fst,
        ih ((next, (heapGet h a).getD defaultColumnSpec) :: h) (next + 1)
          (Nat.lt_succ_of_lt hb),
        heapGet_cons, if_neg (Nat.ne_of_gt hb)]

theorem deepcopy_get? (cols : List (String × Nat)) (h : Heap) (next : Nat)
    (hlt : ∀ p ∈ cols, p.2 < next) (k : Nat) (nm : String) (ad : Nat)
    (hget : cols.get? k = some (nm, ad)) :
    (deepcopy_columns h cols next).2.1.get? k = some (nm, next + k) ∧
    heapGet (deepcopy_columns h cols next).1 (next + k) =
      some ((heapGet h ad).getD defaultColumnSpec) := by
  induction cols generalizing h next k with
  | nil => exact absurd hget (by simp)
  | cons q rest ih =>
      rcases q with ⟨n, b⟩
      rw [deepcopy_columns, consCopy_fst, consCopy_cols]
      cases k with
      | zero =>
          have hpair : (n, b) = (nm, ad) := by simpa using hget
          cases hpair
          constructor
          · rfl
          · have hfr := deepcopy_frame rest
              ((next, (heapGet h ad).getD defaultColumnSpec) :: h) (next + 1)
              next (Nat.lt_succ_self next)
            have hhd : heapGet ((next, (heapGet h ad).getD defaultColumnSpec) :: h)
                next = some ((heapGet h ad).getD defaultColumnSpec) := by
              rw [heapGet_cons, if_pos rfl]
            exact hfr.trans hhd
      | succ k' =>
          have hgr : rest.get? k' = some (nm, ad) := by
            simpa [List.get?] using hget
          have hltr : ∀ p ∈ rest, p.2 < next + 1 := by
            intro p hp
            have := hlt p (List.mem_cons_of_mem _ hp)
            omega
          have hadlt : ad < next :=
            hlt (nm, ad) (List.mem_cons_of_mem _ (List.get?_mem hgr))
          obtain ⟨hc1, hc2⟩ := ih ((next, (heapGet h b).getD defaultColumnSpec) :: h)
            (next + 1) hltr k' hgr
          constructor
          · rw [show next + (k' + 1) = (next + 1) + k' from by omega]
            exact hc1
          · rw [show next + (k' + 1) = (next + 1) + k' from by omega, hc2,
              heapGet_cons, if_neg (Nat.ne_of_gt hadlt)]

/-- C4: instance construction only deep-copies the class-level assembled
columns: each instance's column list has the same names in the same order,
its objects live at fresh addresses holding the same column values, and
mutating a column object of one instance changes neither the class-level
columns nor those of another instance constructed afterwards. -/
theorem C4_instance_columns_isolated
    (h0 : Heap) (base : List (String × Nat)) (n0 : Nat)
    (h1 : Heap) (cols1 : List (String × Nat)) (n1 : Nat)
    (h2 : Heap) (cols2 : List (String × Nat)) (n2 : Nat)
    (hinit1 : datatable_init_columns h0 base n0 = (h1, cols1, n1))
    (hinit2 : datatable_init_columns h1 base n1 = (h2, cols2, n2))
    (hbase : ∀ p ∈ base, p.2 < n0)
    (hvalid : ∀ p ∈ base, (heapGet h0 p.2).isSome)
    (a : Nat) (v : ColumnSpec) (ha : a ∈ cols1.map Prod.snd) :
    (∀ (k : Nat) (nm : String) (ad : Nat), base.get? k = some (nm, ad) →
      cols1.get? k = some (nm, n0 + k) ∧ heapGet h1 (n0 + k) = heapGet h0 ad) ∧
    (∀ p ∈ base, heapGet (heapSet h2 a v) p.2 = heapGet h0 p.2) ∧
    (∀ q ∈ cols2, heapGet (heapSet h2 a v) q.2 = heapGet h2 q.2) := by
  have e1h : (deepcopy_columns h0 base n0).1 = h1 := by rw [show deepcopy_columns h0 base n0 = datatable_init_columns h0 base n0 from rfl, hinit1]
  have e1c : (deepcopy_columns h0 base n0).2.1 = cols1 := by rw [show deepcopy_columns h0 base n0 = datatable_init_columns h0 base n0 from rfl, hinit1]
  have e1n : (deepcopy_columns h0 base n0).2.2 = n1 := by rw [show deepcopy_columns h0 base n0 = datatable_init_columns h0 base n0 from rfl, hinit1]
  have e2h : (deepcopy_columns h1 base n1).1 = h2 := by rw [show deepcopy_columns h1 base n1 = datatable_init_columns h1 base n1 from rfl, hinit2]
  have e2c : (deepcopy_columns h1 base n1).2.1 = cols2 := by rw [show deepcopy_columns h1 base n1 = datatable_init_columns h1 base n1 from rfl, hinit2]
  have hn1 : n1 = n0 + base.length := by rw [← e1n, deepcopy_next]
  have harange : n0 ≤ a ∧ a < n1 := by
    obtain ⟨q, hq, hqa⟩ := List.mem_map.mp ha
    rw [← e1c] at hq
    have hr := deepcopy_addr_range base h0 n0 q hq
    rw [hn1]
    omega
  refine ⟨?_, ?_, ?_⟩
  · intro k nm ad hget
    obtain ⟨hc, hv⟩ := deepcopy_get? base h0 n0 hbase k nm ad hget
    rw [e1h] at hv
    rw [e1c] at hc
    refine ⟨hc, ?_⟩
    have hmem : (nm, ad) ∈ base := List.get?_mem hget
    obtain ⟨w, hw⟩ := Option.isSome_iff_exists.mp (hvalid (nm, ad) hmem)
    rw [hv]
    simp only at hw
    rw [hw]
    rfl
  · intro p hp
    have hplt : p.2 < n0 := hbase p hp
    rw [heapGet_heapSet_ne _ _ _ _ (by omega), ← e2h,
      deepcopy_frame base h1 n1 p.2 (by omega), ← e1h,
      deepcopy_frame base h0 n0 p.2 (by omega)]
  · intro q hq
    rw [← e2c] at hq
    have hr := deepcopy_addr_range base h1 n1 q hq
    rw [← e2h, heapGet_heapSet_ne _ _ _ _ (by omega)]

/-- Witness for C4: two columns at class addresses 0 and 1; the first
instance copies them to 2 and 3, the second to 4 and 5; mutating the object
at address 2 (the first instance's copy of column `a`) leaves the class
objects and the second instance's objects unchanged. -/
theorem C4_instance_columns_isolated_witness :
    (∀ (k : Nat) (nm : String) (ad : Nat),
      ([("a", 0), ("b", 1)] : List (String × Nat)).get? k = some (nm, ad) →
      ([("a", 2), ("b", 3)] : List (String × Nat)).get? k = some (nm, 2 + k) ∧
      heapGet [(3, (⟨"b", "B", ["b"], .textColumn⟩ : ColumnSpec)),
        (2, ⟨"a", "A", ["a"], .textColumn⟩),
        (0, ⟨"a", "A", ["a"], .textColumn⟩), (1, ⟨"b", "B", ["b"], .textColumn⟩)]
        (2 + k) =
      heapGet [(0, (⟨"a", "A", ["a"], .textColumn⟩ : ColumnSpec)),
        (1, ⟨"b", "B", ["b"], .textColumn⟩)] ad) ∧
    (∀ p ∈ ([("a", 0), ("b", 1)] : List (String × Nat)),
      heapGet (heapSet [(5, (⟨"b", "B", ["b"], .textColumn⟩ : ColumnSpec)),
        (4, ⟨"a", "A", ["a"], .textColumn⟩),
        (3, ⟨"b", "B", ["b"], .textColumn⟩), (2, ⟨"a", "A", ["a"], .textColumn⟩),
        (0, ⟨"a", "A", ["a"], .textColumn⟩), (1, ⟨"b", "B", ["b"], .textColumn⟩)]
        2 ⟨"mut", "M", ["m"], .dateColumn⟩) p.2 =
      heapGet [(0, (⟨"a", "A", ["a"], .textColumn⟩ : ColumnSpec)),
        (1, ⟨"b", "B", ["b"], .textColumn⟩)] p.2) ∧
    (∀ q ∈ ([("a", 4), ("b", 5)] : List (String × Nat)),
      heapGet (heapSet [(5, (⟨"b", "B", ["b"], .textColumn⟩ : ColumnSpec)),
        (4, ⟨"a", "A", ["a"], .textColumn⟩),
        (3, ⟨"b", "B", ["b"], .textColumn⟩), (2, ⟨"a", "A", ["a"], .textColumn⟩),
        (0, ⟨"a", "A", ["a"], .textColumn⟩), (1, ⟨"b", "B", ["b"], .textColumn⟩)]
        2 ⟨"mut", "M", ["m"], .dateColumn⟩) q.2 =
      heapGet [(5, (⟨"b", "B", ["b"], .textColumn⟩ : ColumnSpec)),
        (4, ⟨"a", "A", ["a"], .textColumn⟩),
        (3, ⟨"b", "B", ["b"], .textColumn⟩), (2, ⟨"a", "A", ["a"], .textColumn⟩),
        (0, ⟨"a", "A", ["a"], .textColumn⟩), (1, ⟨"b", "B", ["b"], .textColumn⟩)]
        q.2) :=
  C4_instance_columns_isolated
    [(0, ⟨"a", "A", ["a"], .textColumn⟩), (1, ⟨"b", "B", ["b"], .textColumn⟩)]
    [("a", 0), ("b", 1)] 2
    [(3, ⟨"b", "B", ["b"], .textColumn⟩), (2, ⟨"a", "A", ["a"], .textColumn⟩),
     (0, ⟨"a", "A", ["a"], .textColumn⟩), (1, ⟨"b", "B", ["b"], .textColumn⟩)]
    [("a", 2), ("b", 3)] 4
    [(5, ⟨"b", "B", ["b"], .textColumn⟩), (4, ⟨"a", "A", ["a"], .textColumn⟩),
     (3, ⟨"b", "B", ["b"], .textColumn⟩), (2, ⟨"a", "A", ["a"], .textColumn⟩),
     (0, ⟨"a", "A", ["a"], .textColumn⟩), (1, ⟨"b", "B", ["b"], .textColumn⟩)]
    [("a", 4), ("b", 5)] 6
    (by rfl) (by rfl) (by decide) (by decide) 2 ⟨"mut", "M", ["m"], .dateColumn⟩
    (by decide)

theorem hook_name_eq_chain (selfAttrs : String → Option Proc)
    (fallback : Option (String → Option Proc)) (i : Nat) (mangled : String) :
    hook_name_lookup selfAttrs fallback i mangled =
      hook_chain_lookup selfAttrs fallback i mangled := by
  unfold hook_name_lookup hook_chain_lookup
  cases h1 : selfAttrs ("get_column_" ++ mangled ++ "_data") with
  | some f => simp [firstSome]
  | none =>
    cases h2 : selfAttrs ("get_column_" ++ toString i ++ "_data") with
    | some f => simp [firstSome]
    | none =>
      cases fallback with
      | none => simp [firstSome]
      | some fb =>
        cases h3 : fb ("get_column_" ++ mangled ++ "_data") with
        | some f => simp [firstSome, h3]
        | none =>
          cases h4 : fb ("get_column_" ++ toString i ++ "_data") <;>
            simp [firstSome, h3, h4]

/-- C5 counterexample: a column whose explicit processor reference names a
missing table attribute, on a table that does have the name-mangled hook
method: the code raises `AttributeError` from the two-argument `getattr`
instead of falling through to the later lookups, while the claim's
first-match order resolves the mangled method. -/
theorem C5_counterexample :
    get_processor_method
      (fun s => if s = "get_column_A_data" then some (fun w => w) else none)
      none 0 ⟨"a", "A", some (.nameRef "nope"), fun _ => (PyVal.noneV, PyVal.noneV)⟩ =
      .error (.attributeError "nope") ∧
    claim_override_lookup
      (fun s => if s = "get_column_A_data" then some (fun w => w) else none)
      none 0 ⟨"a", "A", some (.nameRef "nope"), fun _ => (PyVal.noneV, PyVal.noneV)⟩ =
      some (fun w => w) :=
  ⟨rfl, rfl⟩

/-- C5 (amended): the override-hook resolution of `_get_processor_method` is
exactly the fixed first-match order: a truthy explicit processor reference
first (used directly when callable, else fetched as a table attribute,
raising `AttributeError` when absent without trying later lookups), then the
name-mangled method on the table, then the index method on the table, then
the same two lookups on the fallback target; when nothing matches there is
no override. -/
theorem C5_override_lookup_order (selfAttrs : String → Option Proc)
    (fallback : Option (String → Option Proc)) (i : Nat) (col : RenderColumn) :
    get_processor_method selfAttrs fallback i col =
      ordered_hook_lookup selfAttrs fallback i col := by
  cases hp : col.processor with
  | none =>
      simp only [get_processor_method, ordered_hook_lookup, hp,
        hook_name_eq_chain]
  | some ref =>
      cases ref with
      | callableRef f =>
          simp only [get_processor_method, ordered_hook_lookup, hp]
      | nameRef s =>
          simp only [get_processor_method, ordered_hook_lookup, hp]
          by_cases hs : s = ""
          · rw [if_pos hs, if_pos hs, hook_name_eq_chain]
          · rw [if_neg hs, if_neg hs]

/-- C6: the label "Region Type" mangles to "Region_Type"; a table method
`get_column_Region_Type_data` is found during row rendering and its return
value replaces the column's default value in the serialized row (without the
method, the default value itself is serialized). -/
theorem C6_region_type_override (f : Proc) (v : PyObj → PyVal × PyVal)
    (obj : PyObj) :
    mangle "Region Type" = "Region_Type" ∧
    (∀ out : String, f (v obj).2 = .str out →
      get_record_data
        (fun s => if s = "get_column_Region_Type_data" then some f else none)
        none [⟨"region_type", "Region Type", none, v⟩] obj =
        Except.ok ⟨obj.pk, [], [("0", out)]⟩) ∧
    (∀ dv : String, (v obj).2 = .str dv →
      get_record_data (fun _ => none) none
        [⟨"region_type", "Region Type", none, v⟩] obj =
        Except.ok ⟨obj.pk, [], [("0", dv)]⟩) := by
  refine ⟨by decide, ?_, ?_⟩
  · intro out hf
    unfold get_record_data renderCells
    rw [show get_processor_method
        (fun s => if s = "get_column_Region_Type_data" then some f else none)
        none 0 ⟨"region_type", "Region Type", none, v⟩ = pure (some f) from by
      unfold get_processor_method hook_name_lookup
      rw [show hookSeed ⟨"region_type", "Region Type", none, v⟩ =
        "Region Type" from rfl]
      rw [show ("get_column_" ++ mangle "Region Type" ++ "_data") =
        "get_column_Region_Type_data" from by decide]
      simp]
    simp [renderCells, pyExtractFirst, pyStr, bind, Except.bind, pure,
      Except.pure, hf, show toString (0 : Nat) = "0" from rfl]
  · intro dv hdv
    unfold get_record_data renderCells
    rw [show get_processor_method (fun _ => none)
        none 0 ⟨"region_type", "Region Type", none, v⟩ = pure none from by
      unfold get_processor_method hook_name_lookup
      simp]
    simp [renderCells, pyExtractFirst, pyStr, bind, Except.bind, pure,
      Except.pure, hdv, show toString (0 : Nat) = "0" from rfl]

/-- Witness for C6: the override method returns `"OVERRIDE"`, replacing the
default plain value `"d"`; without the method, `"d"` is serialized. -/
theorem C6_region_type_override_witness :
    mangle "Region Type" = "Region_Type" ∧
    get_record_data
      (fun s => if s = "get_column_Region_Type_data"
        then some (fun _ => PyVal.str "OVERRIDE") else none) none
      [⟨"region_type", "Region Type", none,
        fun _ => (PyVal.str "d", PyVal.str "d")⟩] ⟨PyVal.intV 1⟩ =
      Except.ok ⟨PyVal.intV 1, [], [("0", "OVERRIDE")]⟩ ∧
    get_record_data (fun _ => none) none
      [⟨"region_type", "Region Type", none,
        fun _ => (PyVal.str "d", PyVal.str "d")⟩] ⟨PyVal.intV 1⟩ =
      Except.ok ⟨PyVal.intV 1, [], [("0", "d")]⟩ := by
  have h := C6_region_type_override (fun _ => PyVal.str "OVERRIDE")
    (fun _ => (PyVal.str "d", PyVal.str "d")) ⟨PyVal.intV 1⟩
  exact ⟨h.1, h.2.1 "OVERRIDE" rfl, h.2.2 "d" rfl⟩

end Datatables
